import Mathlib

/-!
Verification of the PyABSA data-preparation / local-context-weighting pipeline
and the training-loop checkpoint policy.

The development shallowly embeds the relevant Python code:

* `pyabsa/apc/dataset_utils/data_utils_for_inferring.py` (`ABSADataset`):
  `parse_sample`, the polarity extraction of `process_data`, the error-handling
  skeleton of `process_data`, `get_lca_ids_and_cdm_vec`, `get_cdw_vec`,
  `get_asp_index`;
* `pyabsa/apc/prediction/prediction.py` (`SentimentClassifier._infer`):
  the inference result record;
* `pyabsa/tasks/apc/training/apc_trainer.py` (`Instructor`):
  `prepare_dataloader` (k-fold splitting) and the per-fold checkpoint policy of
  `_train_and_evaluate`.

Python strings are modelled as `List Char`; `str.split`, `str.replace` and
`str.strip` are reimplemented with Python's exact semantics (left-to-right,
non-overlapping occurrences).  NumPy float arrays of broadcast rows
`w * ones(embed_dim)` are modelled by their per-position rational scalar `w`;
real arithmetic is idealized as `ℚ`.  External collaborators (the BERT
tokenizer, the dependency-distance estimator, the neural model and the torch
random permutation) are parameters of the embedded functions, following the
interface boundary of the specification.
-/

/-! ## Python string primitives over `List Char` -/

/-- Python `str.startswith` for `List Char`: `pat` is a leading segment of `s`. -/
def leadsWith : List Char → List Char → Bool
  | [], _ => true
  | _ :: _, [] => false
  | p :: ps, c :: cs => p = c && leadsWith ps cs

/-- Recursion core of `pyReplace`.  The fuel argument only forces structural
termination: each step consumes at least one character of `s` (for nonempty
`old`), so any fuel of at least `s.length` yields the replace-all semantics. -/
def pyReplaceAux (old new : List Char) : ℕ → List Char → List Char
  | _, [] => []
  | 0, s => s
  | fuel + 1, c :: cs =>
    if leadsWith old (c :: cs) then new ++ pyReplaceAux old new fuel ((c :: cs).drop old.length)
    else c :: pyReplaceAux old new fuel cs

/-- Python `s.replace(old, new)`: replaces every non-overlapping occurrence of
`old` in `s` left to right.  For `old = ''` Python inserts `new` before every
character and at the end, which the first branch reproduces. -/
def pyReplace (s old new : List Char) : List Char :=
  if old = [] then new ++ (s.map (fun c => c :: new)).flatten
  else pyReplaceAux old new s.length s

/-- Recursion core of `pySplit`, fueled like `pyReplaceAux`. -/
def pySplitAux (sep : List Char) : ℕ → List Char → List (List Char)
  | _, [] => [[]]
  | 0, s => [s]
  | fuel + 1, c :: cs =>
    if leadsWith sep (c :: cs) then [] :: pySplitAux sep fuel ((c :: cs).drop sep.length)
    else
      match pySplitAux sep fuel cs with
      | [] => [[c]]
      | p :: ps => (c :: p) :: ps

/-- Python `s.split(sep)` for a separator, scanning left to right over
non-overlapping occurrences.  `pySplit s sep` always returns at least one
piece; it returns at least two pieces exactly when `sep` occurs in `s`
(for nonempty `sep`; Python raises on an empty separator, a case never
exercised by the embedded code). -/
def pySplit (s sep : List Char) : List (List Char) :=
  if sep = [] then [s]
  else pySplitAux sep s.length s

/-- Python `in` for substrings (`pat` nonempty): `pat` occurs in `s` iff
splitting on it produces at least two pieces. -/
def containsSub (s pat : List Char) : Bool := decide (2 ≤ (pySplit s pat).length)

/-- Number of non-overlapping occurrences of `pat` in `s`. -/
def countOccs (s pat : List Char) : ℕ := (pySplit s pat).length - 1

/-- The whitespace characters recognized by Python `str.strip()` /
`str.split()` (ASCII portion). -/
def isPyWs (c : Char) : Bool :=
  c = ' ' || c = '\t' || c = '\n' || c = '\r' || c = '\x0b' || c = '\x0c'

/-- Python `s.strip()`. -/
def pyStrip (s : List Char) : List Char :=
  ((s.dropWhile isPyWs).reverse.dropWhile isPyWs).reverse

/-- Python `s.split()` with no argument: split on whitespace runs, dropping
empty words. -/
def pySplitWs (s : List Char) : List (List Char) :=
  (List.splitOnP isPyWs s).filter (fun w => w ≠ [])

/-- Value of a decimal digit character. -/
def digitVal (c : Char) : Option ℕ :=
  if c.isDigit then some (c.toNat - 48) else none

/-- Accumulating decimal parser: `none` on the first non-digit. -/
def digitsValAux : ℕ → List Char → Option ℕ
  | acc, [] => some acc
  | acc, c :: cs =>
    match digitVal c with
    | some d => digitsValAux (acc * 10 + d) cs
    | none => none

/-- Python `int(s)` on an already-stripped string, modelled for an optional
sign followed by decimal digits; `none` models the `ValueError` raised on any
other input. -/
def pyInt : List Char → Option ℤ
  | [] => none
  | '-' :: rest => if rest = [] then none else (digitsValAux 0 rest).map (fun n => -(n : ℤ))
  | '+' :: rest => if rest = [] then none else (digitsValAux 0 rest).map (fun n => (n : ℤ))
  | l => (digitsValAux 0 l).map (fun n => (n : ℤ))

/-! ## `ABSADataset.parse_sample` (data_utils_for_inferring.py, lines 31-61) -/

/-- The `[ASP]` aspect delimiter. -/
def aspTok : List Char := "[ASP]".data

/-- The `[TEMP]` scratch delimiter used by the `!sent!` branches. -/
def tmpTok : List Char := "[TEMP]".data

/-- The `!sent!` reference-polarity separator. -/
def sentTok : List Char := "!sent!".data

/-- The message printed by `parse_sample`'s `except` handler:
`print('Error while processing:', text)`. -/
def errMsg (t : List Char) : List Char := "Error while processing: ".data ++ t

/-- The warning printed when the aspect count and the reference-polarity count
disagree (line 52-53). -/
def warnMsg (t : List Char) : List Char :=
  t ++ " -> Unequal length of reference sentiment and aspects, ingore the refernece sentiment.".data

/-- Python `range(0, n, 2)`. -/
def evens (n : ℕ) : List ℕ := (List.range ((n + 1) / 2)).map (fun j => 2 * j)

/-- One sample of the no-`!sent!` branch (line 37): strip every `[ASP]` from
the raw line, then wrap every occurrence of the chosen aspect string in
`[ASP]...[ASP]`. -/
def mkNoSentSample (t asp : List Char) : List Char :=
  pyReplace (pyReplace t aspTok []) asp (aspTok ++ asp ++ aspTok)

/-- One sample of the `!sent!` branches (lines 47-50 and 55-57): move the
chosen aspect's delimiters to `[TEMP]`, strip the remaining `[ASP]`s,
optionally append the reference polarity, and restore `[ASP]`. -/
def mkSentSample (tx asp : List Char) (ref : Option (List Char)) : List Char :=
  let s := pyReplace (pyReplace tx (aspTok ++ asp ++ aspTok) (tmpTok ++ asp ++ tmpTok)) aspTok []
  let s := match ref with
    | some r => s ++ " !sent! ".data ++ r
    | none => s
  pyReplace s tmpTok aspTok

/-- Result of `parse_sample`: the returned samples, the messages printed, and
whether the `except` handler fired. -/
structure ParseOut where
  samples : List (List Char)
  msgs : List (List Char)
  raised : Bool
deriving DecidableEq

/-- The loop of the matching-count `!sent!` branch (lines 46-50).  Indexing
`ref_sent[int(i / 2)]` can raise `IndexError` mid-loop (when the split list
has even length, i.e. an odd number of `[ASP]` markers); samples appended
before that point are kept, matching Python's `try` semantics. -/
def eqLoop (tx : List Char) (splits refs : List (List Char)) :
    List ℕ → List (List Char) × Bool
  | [] => ([], false)
  | i :: rest =>
    match refs.get? (i / 2) with
    | none => ([], true)
    | some r =>
      let s := mkSentSample tx (splits.getD (i + 1) []) (some r)
      let (ss, e) := eqLoop tx splits refs rest
      (s :: ss, e)

/-- Line 42: `text = '[PADDING] ' + text + ' [PADDING]'`. -/
def padText (t : List Char) : List Char :=
  "[PADDING] ".data ++ t ++ " [PADDING]".data

/-- Packaging of the matching-count loop result: the accumulated samples, the
error message if the loop raised, and the raised flag. -/
def mkRaisedOut (tx : List Char) (r : List (List Char) × Bool) : ParseOut :=
  ⟨r.1, if r.2 then [errMsg tx] else [], r.2⟩

/-- The `!sent!` branch of `parse_sample` (lines 40-57), after the two-element
unpacking succeeded: pad the text, split on `[ASP]`, and either run the
matching-count loop (which may raise mid-loop) or drop the polarities with a
warning. -/
def parseSentBranch (text0 ref0 : List Char) : ParseOut :=
  if ((pySplit (padText text0) aspTok).length - 1) / 2 = (pySplitWs ref0).length then
    mkRaisedOut (padText text0)
      (eqLoop (padText text0) (pySplit (padText text0) aspTok) (pySplitWs ref0)
        (evens ((pySplit (padText text0) aspTok).length - 1)))
  else
    ⟨(evens ((pySplit (padText text0) aspTok).length - 1)).map
        (fun i => mkSentSample (padText text0) ((pySplit (padText text0) aspTok).getD (i + 1) []) none),
      [warnMsg (padText text0)], false⟩

/-- `ABSADataset.parse_sample`.  The `try` body can raise in exactly two
places: the two-element unpacking of `text.split('!sent!')` (ValueError when
`!sent!` occurs more than once) and `ref_sent[int(i / 2)]` inside the
matching-count loop; both are caught by the blanket `except`, which prints
`errMsg` and returns the samples accumulated so far. -/
def parse_sample (t : List Char) : ParseOut :=
  if containsSub t sentTok then
    match pySplit t sentTok with
    | [text0, ref0] => parseSentBranch text0 ref0
    | _ => ⟨[], [errMsg t], true⟩
  else
    let splits := pySplit t aspTok
    ⟨(evens (splits.length - 1)).map (fun i => mkNoSentSample t (splits.getD (i + 1) [])), [], false⟩

/-! ## Polarity extraction of `ABSADataset.process_data` (lines 86-91) -/

/-- The stored polarity of one sample: `int(polarity) + 1` when a nonempty
reference-polarity field follows `!sent!`, else the sentinel `-999`; `none`
models the `ValueError` of `int()` on an unparseable field (caught by
`process_data`'s per-sample handler). -/
def polarityOf (t : List Char) : Option ℤ :=
  if containsSub t sentTok then
    let p := pyStrip ((pySplit t sentTok).getD 1 [])
    if p = [] then some (-999) else (pyInt p).map (fun v => v + 1)
  else some (-999)

/-! ## Error-handling skeleton of `ABSADataset.process_data` (lines 77-173)

The per-sample body calls the external tokenizer, which is assumed not to
fail (spec section 6); the failure points embedded here are the ones visible
in the source itself: the empty-input guard (line 83-84), the `int()` of the
polarity field (line 89), the three-way unpacking of `text.split('[ASP]')`
(line 93), and the LCF-mode dispatch (lines 110-126). -/

/-- Errors the per-sample body of `process_data` can raise. -/
inductive FeatErr
  | invalidInput
  | badPolarity
  | badAspSplit
  | lcfFusionNotImplemented
  | invalidLcfMode
deriving DecidableEq

/-- Outcome of checking one sample. -/
inductive FeatCheck
  | pass
  | fail (e : FeatErr)
deriving DecidableEq

/-- Whether a check failed. -/
def FeatCheck.isFail : FeatCheck → Bool
  | .pass => false
  | .fail _ => true

/-- The LCF-mode dispatch of `process_data` (lines 110-126): `lca` models call
`get_lca_ids_and_cdm_vec`; `lcf` models dispatch on the `lcf` option, raising
`NotImplementedError` for `fusion` and `KeyError` for anything else. -/
def lcfFeatureCheck (model_name lcf : List Char) : FeatCheck :=
  if containsSub model_name "lca".data then .pass
  else if containsSub model_name "lcf".data then
    if containsSub lcf "cdm".data then .pass
    else if containsSub lcf "cdw".data then .pass
    else if containsSub lcf "fusion".data then .fail .lcfFusionNotImplemented
    else .fail .invalidLcfMode
  else .pass

/-- The raise-points of the `try` body of `process_data` for one sample
(`none` models a `None` entry). -/
def sampleCheck (model_name lcf : List Char) : Option (List Char) → FeatCheck
  | none => .fail .invalidInput
  | some s =>
    if pyStrip s = [] then .fail .invalidInput
    else
      let hasSent := containsSub s sentTok
      let pol := pyStrip ((pySplit s sentTok).getD 1 [])
      if hasSent ∧ pol ≠ [] ∧ (pyInt pol) = none then .fail .badPolarity
      else
        let body := if hasSent then pyStrip ((pySplit s sentTok).getD 0 []) else s
        if (pySplit body aspTok).length ≠ 3 then .fail .badAspSplit
        else lcfFeatureCheck model_name lcf

/-- Result of `process_data`: either the list of samples that produced a
feature record, or the `RuntimeError` message of the fatal path. -/
inductive ProcResult
  | ok (survivors : List (List Char))
  | fatal (msg : List Char)
deriving DecidableEq

/-- The per-sample `try`/`except` loop of `process_data` (lines 80-159): a
failing sample is skipped when `ignore_error` is set, and otherwise converts
the error into a fatal `RuntimeError` that aborts the whole call. -/
def process_data_ctrl (model_name lcf : List Char) (ignore_error : Bool) :
    List (Option (List Char)) → ProcResult
  | [] => .ok []
  | t :: rest =>
    match sampleCheck model_name lcf t with
    | .pass =>
      match process_data_ctrl model_name lcf ignore_error rest with
      | .ok l => .ok (t.getD [] :: l)
      | .fatal m => .fatal m
    | .fail _ =>
      if ignore_error then process_data_ctrl model_name lcf ignore_error rest
      else .fatal ("Error while processing: ".data ++ t.getD [])

/-! ## `get_asp_index`, `get_cdw_vec`, `get_lca_ids_and_cdm_vec`
(data_utils_for_inferring.py, lines 175-249)

Token id sequences are `List ℕ` (0 is padding).  A NumPy row
`w * np.ones(embed_dim)` is represented by the scalar `w : ℚ`, so the
`(max_seq_len, embed_dim)` weight matrices become per-position scalar
functions `ℕ → ℚ`.  `none` models a NumPy `IndexError` escaping the method
(aspect first-token not found, or all-zero `text_ids`). -/

/-- `np.count_nonzero`. -/
def countNonzero (l : List ℕ) : ℕ := (l.filter (fun x => x ≠ 0)).length

/-- `aspect_len = np.count_nonzero(aspect_indices) - 2` (Python ints do not
truncate at zero). -/
def aspectLenZ (aids : List ℕ) : ℤ := (countNonzero aids : ℤ) - 2

/-- `np.argwhere(text_ids == aspect_indices[1])[0]`: index of the first
occurrence of the aspect's first token id in `text_ids`; `none` is the
`IndexError` on an empty match. -/
def firstIdx (tids aids : List ℕ) : Option ℕ :=
  tids.findIdx? (fun x => x = aids.getD 1 0)

/-- `ABSADataset.get_asp_index` (lines 244-249): the averaged, possibly
fractional aspect position `(aspect_begin * 2 + aspect_len) / 2`. -/
def get_asp_index (tids aids : List ℕ) : Option ℚ :=
  (firstIdx tids aids).map (fun k => ((k : ℚ) * 2 + (aspectLenZ aids : ℚ)) / 2)

/-- `text_len = np.flatnonzero(text_ids)[-1] + 1` (line 211): one past the
last nonzero position; `none` is the `IndexError` on all-zero input. -/
def textLen (tids : List ℕ) : Option ℕ :=
  (((List.range tids.length).filter (fun i => tids.getD i 0 ≠ 0)).getLast?).map (fun i => i + 1)

/-- `ABSADataset.get_cdw_vec` (lines 206-242).  `isLcfs` selects the
dependency-distance branch, whose per-position syntactic distances `synDist`
come from the external estimator; the absolute branch uses
`get_asp_index`.  Positions at or beyond `text_len` keep the `np.zeros`
initialization. -/
def get_cdw_vec (isLcfs : Bool) (synDist : ℕ → ℚ) (SRD : ℕ) (tids aids : List ℕ) :
    Option (ℕ → ℚ) :=
  match firstIdx tids aids, textLen tids with
  | some _, some tl =>
    if isLcfs then
      some (fun i =>
        if i < tl then (if (SRD : ℚ) < synDist i then 1 - synDist i / tl else 1) else 0)
    else
      match get_asp_index tids aids with
      | none => none
      | some ab =>
        if ab < 0 then some (fun _ => 0)
        else
          let alen : ℚ := (aspectLenZ aids : ℚ)
          let lcb : ℚ := max 0 (ab - SRD)
          let lce : ℚ := ab + alen + SRD - 1
          some (fun i =>
            if i < tl then
              if (i : ℚ) < lcb then 1 - (lcb - i) / tl
              else if (i : ℚ) ≤ lce then 1
              else 1 - (i - lce) / tl
            else 0)
  | _, _ => none

/-- The scalar weight of `get_cdw_vec` at one position. -/
def cdw_weight_at (isLcfs : Bool) (synDist : ℕ → ℚ) (SRD : ℕ) (tids aids : List ℕ)
    (i : ℕ) : Option ℚ :=
  (get_cdw_vec isLcfs synDist SRD tids aids).map (fun f => f i)

/-- `ABSADataset.get_lca_ids_and_cdm_vec` (lines 175-204): both `lca_ids` and
`cdm_vec` start as `np.ones`, and the loops only ever write 1 into positions
of the local window, so nothing is ever zeroed.  The pair is
(`lca_ids` scalar, `cdm_vec` row scalar). -/
def get_lca_ids_and_cdm_vec (isLcfs : Bool) (synDist : ℕ → ℚ) (SRD msl : ℕ)
    (tids aids : List ℕ) : Option ((ℕ → ℚ) × (ℕ → ℚ)) :=
  if isLcfs then
    some (fun i => if i < msl ∧ synDist i ≤ (SRD : ℚ) then 1 else 1,
          fun i => if i < msl ∧ synDist i ≤ (SRD : ℚ) then 1 else 1)
  else
    match get_asp_index tids aids with
    | none => none
    | some ab =>
      if ab < 0 then some (fun _ => 1, fun _ => 1)
      else
        let alen : ℚ := (aspectLenZ aids : ℚ)
        let lcb : ℚ := max 0 (ab - SRD)
        let lce : ℚ := ab + alen + SRD - 1
        some (fun i => if i < msl ∧ lcb ≤ (i : ℚ) ∧ (i : ℚ) ≤ lce then 1 else 1,
              fun i => if i < msl ∧ lcb ≤ (i : ℚ) ∧ (i : ℚ) ≤ lce then 1 else 1)

/-! ## `SentimentClassifier._infer` result record (prediction.py, lines 134-163) -/

/-- One entry of the `results` list built by `_infer`.  A Python dict key that
may be missing is modelled by an `Option` field (`none` = key absent). -/
structure InferRecord where
  text : List Char
  aspect : List Char
  sentiment : ℤ
  ref_sentiment : List Char
  infer_result : Option (List Char)
deriving DecidableEq

/-- The `sentiments` lookup table (line 137); `none` models the `KeyError` on
any other key. -/
def sentimentsMap (k : ℤ) : Option (List Char) :=
  if k = 0 then some "Negative".data
  else if k = 1 then some "Neutral".data
  else if k = 2 then some "Positive".data
  else if k = -999 then some [] else none

/-- The `Correct` lookup table (line 138). -/
def correctStr (b : Bool) : List Char :=
  if b then "Correct".data else "Wrong".data

/-- Construction of one result record (lines 148-162): every field, including
`'infer result'`, is assigned unconditionally. -/
def mkInferRecord (text aspect : List Char) (sent real_sent : ℤ) : Option InferRecord :=
  (sentimentsMap real_sent).map (fun ref =>
    ⟨text, aspect, sent, ref, some (correctStr (decide (sent = real_sent)))⟩)

/-! ## Checkpoint policy of `Instructor._train_and_evaluate`
(apc_trainer.py, lines 146-181)

One fold is a run of the state machine below over the sequence of periodic
evaluation results `(test_acc, f1)`.  The filesystem is idealized: the
retained checkpoint directories are the list `dirs`, `shutil.rmtree` is
`List.erase`, and `save_model` appends.  `save_path` names encode
`round(x * 100, 2)` of the metrics; Python 3 `round` rounds half to even. -/

/-- Round half to even of a rational, Python 3 `round(x)`. -/
def rhe (x : ℚ) : ℤ :=
  if x - ⌊x⌋ = 1 / 2 then (if ⌊x⌋ % 2 = 0 then ⌊x⌋ else ⌊x⌋ + 1) else round x

/-- Python `round(x, 2)`. -/
def pyRound2 (x : ℚ) : ℚ := (rhe (x * 100) : ℚ) / 100

/-- A checkpoint directory name
`{root}/{model_name}_{lcf}_acc_{acc}_f1_{f1}/` (lines 169-174). -/
structure SavePath where
  model_name : List Char
  lcf : List Char
  accEnc : ℚ
  f1Enc : ℚ
deriving DecidableEq

/-- The directory name saved for an evaluation result. -/
def mkSavePath (mn lcf : List Char) (acc f1 : ℚ) : SavePath :=
  ⟨mn, lcf, pyRound2 (acc * 100), pyRound2 (f1 * 100)⟩

/-- Per-fold checkpoint state: the running maximum accuracy, the current
`save_path` (`none` for the initial empty string), the retained checkpoint
directories on disk, and the history of directories passed to `save_model`. -/
structure CkptState where
  maxAcc : ℚ
  savePath : Option SavePath
  dirs : List SavePath
  saves : List SavePath
deriving DecidableEq

/-- Fold-initial state (lines 119-121). -/
def initCkpt : CkptState := ⟨0, none, [], []⟩

/-- One periodic evaluation (lines 156-181): on a strict improvement the
maximum is updated and, when a save root is configured, the previous best
directory is removed before the new one is written. -/
def ckptStep (mn lcf : List Char) (saveEnabled : Bool) (st : CkptState)
    (acc f1 : ℚ) : CkptState :=
  if st.maxAcc < acc then
    if saveEnabled then
      let dirs0 := match st.savePath with
        | some p => st.dirs.erase p
        | none => st.dirs
      let p := mkSavePath mn lcf acc f1
      ⟨acc, some p, dirs0 ++ [p], st.saves ++ [p]⟩
    else ⟨acc, st.savePath, st.dirs, st.saves⟩
  else st

/-- A whole fold: the evaluation results in order. -/
def ckptRun (mn lcf : List Char) (saveEnabled : Bool) :
    CkptState → List (ℚ × ℚ) → CkptState
  | st, [] => st
  | st, e :: es => ckptRun mn lcf saveEnabled (ckptStep mn lcf saveEnabled st e.1 e.2) es

/-- The per-fold checkpoint invariant: the retained directories are exactly
the current `save_path` (so at most one), the encoded accuracies of the saves
are non-decreasing in save order, and every saved encoding is at most the
encoding of the running maximum. -/
def CkptInv (st : CkptState) : Prop :=
  st.dirs = st.savePath.toList ∧
  st.saves.Pairwise (fun p q => p.accEnc ≤ q.accEnc) ∧
  (∀ p ∈ st.saves, p.accEnc ≤ pyRound2 (st.maxAcc * 100))

/-! ## `Instructor.prepare_dataloader` (apc_trainer.py, lines 71-97)

A dataset is a list of examples; `torch.utils.data.random_split(ds, lengths)`
draws a random permutation of the dataset and cuts it into consecutive chunks
of the given lengths, so the permutation `perm` is a parameter here.
Batching and shuffling inside each `DataLoader` do not change membership and
are dropped. -/

/-- Cut consecutive chunks of the given lengths from a list. -/
def splitChunks {α : Type} : List α → List ℕ → List (List α)
  | _, [] => []
  | l, n :: ns => l.take n :: splitChunks (l.drop n) ns

/-- The lengths tuple passed to `random_split` (lines 87-89): `m - 1` chunks
of `total / m` and a last chunk absorbing the remainder. -/
def foldLengths (m total : ℕ) : List ℕ :=
  List.replicate (m - 1) (total / m) ++ [total - (m - 1) * (total / m)]

/-- `Instructor.prepare_dataloader`: the pair (train loader datasets, test
loader datasets).  With `cross_validate_fold < 1` the configured single split
is used (no test loader when the test set is absent/empty); otherwise fold
`i` trains on every chunk except `i` and tests on chunk `i`. -/
def prepare_dataloader {α : Type} (cvf : ℤ) (train test perm : List α) :
    List (List α) × List (List α) :=
  if cvf < 1 then ([train], if test.isEmpty then [] else [test])
  else
    let sumDs := if test.isEmpty then train else train ++ test
    let m := cvf.toNat
    let folds := splitChunks perm (foldLengths m sumDs.length)
    ((List.range m).map (fun i => (folds.eraseIdx i).flatten), folds)

example : pySplit "xab".data "x".data = [[], ['a', 'b']] := by decide
example : pySplit "ax".data "x".data = [['a'], []] := by decide
example : pySplit "ab".data "x".data = [['a', 'b']] := by decide
example : pyReplace "x a a".data "a".data "[b]".data = "x [b] [b]".data := by decide
example : pyStrip "  a b ".data = "a b".data := by decide
example : pySplitWs " 1  2 ".data = [['1'], ['2']] := by decide
example : pyInt "12".data = some 12 := by decide
example : pyInt "-3".data = some (-3) := by decide
example : pyInt "a".data = none := by decide
example : (parse_sample "l [ASP]a[ASP] r".data).samples = ["l [ASP]a[ASP] r".data] := by decide
example :
    (parse_sample "a [ASP]b[ASP] c !sent! 1".data).samples
      = ["[PADDING] a [ASP]b[ASP] c  [PADDING] !sent! 1".data] := by decide
example : polarityOf "a [ASP]b[ASP] !sent! 2".data = some 3 := by decide
example : polarityOf "a [ASP]b[ASP]".data = some (-999) := by decide

/-! ## Helper lemmas -/

theorem evens_length (n : ℕ) : (evens n).length = (n + 1) / 2 := by
  simp [evens]

theorem evens_getElem? (n i : ℕ) (h : i < (n + 1) / 2) :
    (evens n)[i]? = some (2 * i) := by
  simp [evens, List.getElem?_map, List.getElem?_range, h]

theorem findIdx?_lt_length {α : Type} {p : α → Bool} {l : List α} {k : ℕ}
    (h : l.findIdx? p = some k) : k < l.length := by
  induction l generalizing k with
  | nil => simp [List.findIdx?] at h
  | cons a as ih =>
    rw [List.findIdx?_cons] at h
    by_cases hpa : p a
    · simp [hpa] at h
      simp only [List.length_cons]
      omega
    · simp [hpa] at h
      obtain ⟨j, hj, rfl⟩ := h
      have := ih hj
      simp only [List.length_cons]
      omega

theorem textLen_pos {tids : List ℕ} {tl : ℕ} (h : textLen tids = some tl) : 1 ≤ tl := by
  unfold textLen at h
  cases hl : ((List.range tids.length).filter (fun i => tids.getD i 0 ≠ 0)).getLast? with
  | none =>
    rw [hl] at h
    simp at h
  | some j =>
    rw [hl] at h
    have h2 : j + 1 = tl := by simpa using h
    omega

theorem aspectLenZ_cast {aids : List ℕ} (h : 2 ≤ countNonzero aids) :
    (aspectLenZ aids : ℚ) = ((countNonzero aids - 2 : ℕ) : ℚ) := by
  unfold aspectLenZ
  have h2 : (countNonzero aids : ℤ) - 2 = ((countNonzero aids - 2 : ℕ) : ℤ) := by omega
  rw [h2]
  push_cast
  rfl

theorem splitChunks_length {α : Type} (l : List α) (ks : List ℕ) :
    (splitChunks l ks).length = ks.length := by
  induction ks generalizing l with
  | nil => rfl
  | cons n ns ih => simp [splitChunks, ih]

theorem splitChunks_flatten {α : Type} (l : List α) (ks : List ℕ)
    (h : ks.sum = l.length) : (splitChunks l ks).flatten = l := by
  induction ks generalizing l with
  | nil =>
    simp only [List.sum_nil] at h
    simp only [splitChunks, List.flatten_nil]
    exact (List.eq_nil_of_length_eq_zero h.symm).symm
  | cons n ns ih =>
    simp only [List.sum_cons] at h
    simp only [splitChunks, List.flatten_cons]
    rw [ih (l.drop n) (by simp only [List.length_drop]; omega)]
    exact List.take_append_drop n l

theorem splitChunks_getD_length {α : Type} (l : List α) (ks : List ℕ)
    (h : ks.sum ≤ l.length) (i : ℕ) (hi : i < ks.length) :
    ((splitChunks l ks).getD i []).length = ks.getD i 0 := by
  induction ks generalizing l i with
  | nil => simp at hi
  | cons n ns ih =>
    simp only [List.sum_cons] at h
    cases i with
    | zero =>
      simp only [splitChunks, List.getD_cons_zero, List.length_take]
      omega
    | succ j =>
      simp only [splitChunks, List.getD_cons_succ]
      exact ih (l.drop n) (by simp only [List.length_drop]; omega) j
        (by simp only [List.length_cons] at hi; omega)

theorem foldLengths_length (m total : ℕ) : (foldLengths m total).length = m - 1 + 1 := by
  simp [foldLengths]

theorem foldLengths_sum (m total : ℕ) : (foldLengths m total).sum = total := by
  have ha : (m - 1) * (total / m) ≤ total := by
    calc (m - 1) * (total / m) ≤ m * (total / m) :=
          Nat.mul_le_mul_right _ (by omega)
    _ = total / m * m := Nat.mul_comm m (total / m)
    _ ≤ total := Nat.div_mul_le_self total m
  simp only [foldLengths, List.sum_append, List.sum_replicate, smul_eq_mul,
    List.sum_cons, List.sum_nil]
  omega

theorem foldLengths_getD_front (m total i : ℕ) (hi : i + 1 < m) :
    (foldLengths m total).getD i 0 = total / m := by
  unfold foldLengths
  rw [List.getD_eq_getElem?_getD,
    List.getElem?_append_left (by simp only [List.length_replicate]; omega),
    List.getElem?_replicate]
  simp only [if_pos (by omega : i < m - 1)]
  rfl

theorem foldLengths_getD_last (m total : ℕ) :
    (foldLengths m total).getD (m - 1) 0 = total - (m - 1) * (total / m) := by
  unfold foldLengths
  rw [List.getD_eq_getElem?_getD,
    List.getElem?_append_right (by simp only [List.length_replicate]; omega)]
  simp

theorem rhe_ge (x : ℚ) : ⌊x⌋ ≤ rhe x := by
  unfold rhe
  split
  · split <;> omega
  · rw [round_eq]
    exact Int.floor_le_floor (by linarith)

theorem rhe_le (x : ℚ) : rhe x ≤ ⌊x⌋ + 1 := by
  unfold rhe
  split
  · split <;> omega
  · rw [round_eq]
    calc ⌊x + 1 / 2⌋ ≤ ⌊x + 1⌋ := Int.floor_le_floor (by linarith)
    _ = ⌊x⌋ + 1 := by
        rw [show x + 1 = x + (1 : ℤ) by push_cast; ring, Int.floor_add_int]

theorem rhe_gt_floor_iff (x : ℚ) :
    ⌊x⌋ < rhe x ↔ (1 / 2 < x - ⌊x⌋ ∨ (x - ⌊x⌋ = 1 / 2 ∧ ⌊x⌋ % 2 ≠ 0)) := by
  unfold rhe
  by_cases ht : x - ⌊x⌋ = 1 / 2
  · rw [if_pos ht]
    by_cases he : ⌊x⌋ % 2 = 0
    · rw [if_pos he]
      simp [ht, he]
    · rw [if_neg he]
      simp [ht, he]
  · rw [if_neg ht, round_eq]
    constructor
    · intro hlt
      left
      have hle : ((⌊x⌋ + 1 : ℤ) : ℚ) ≤ x + 1 / 2 := Int.le_floor.mp (by omega)
      push_cast at hle
      have hge : 1 / 2 ≤ x - ⌊x⌋ := by linarith
      rcases eq_or_lt_of_le hge with heq | hgt
      · exact absurd heq.symm ht
      · exact hgt
    · intro hr
      rcases hr with hgt | ⟨heq, _⟩
      · have : ((⌊x⌋ + 1 : ℤ) : ℚ) ≤ x + 1 / 2 := by push_cast; linarith
        have := Int.le_floor.mpr this
        omega
      · exact absurd heq ht

theorem rhe_mono {x y : ℚ} (h : x ≤ y) : rhe x ≤ rhe y := by
  rcases lt_trichotomy ⌊x⌋ ⌊y⌋ with hlt | heq | hgt
  · calc rhe x ≤ ⌊x⌋ + 1 := rhe_le x
    _ ≤ ⌊y⌋ := by omega
    _ ≤ rhe y := rhe_ge y
  · by_cases hx2 : rhe x ≤ ⌊x⌋
    · calc rhe x ≤ ⌊x⌋ := hx2
      _ = ⌊y⌋ := heq
      _ ≤ rhe y := rhe_ge y
    · push_neg at hx2
      have hfr : x - ⌊x⌋ ≤ y - ⌊y⌋ := by
        have : ((⌊x⌋ : ℤ) : ℚ) = ((⌊y⌋ : ℤ) : ℚ) := by exact_mod_cast heq
        linarith
      have hy2 : ⌊y⌋ < rhe y := by
        rw [rhe_gt_floor_iff]
        rcases (rhe_gt_floor_iff x).mp hx2 with hgt | ⟨hteq, hodd⟩
        · left
          linarith
        · rcases eq_or_lt_of_le hfr with hfe | hflt
          · right
            exact ⟨by rw [← hfe, hteq], by rw [← heq]; exact hodd⟩
          · left
            linarith [hteq]
      calc rhe x ≤ ⌊x⌋ + 1 := rhe_le x
      _ = ⌊y⌋ + 1 := by omega
      _ ≤ rhe y := hy2
  · exact absurd (Int.floor_le_floor h) (by omega)

theorem pyRound2_mono {x y : ℚ} (h : x ≤ y) : pyRound2 x ≤ pyRound2 y := by
  unfold pyRound2
  have hm := rhe_mono (by linarith : x * 100 ≤ y * 100)
  have hc : ((rhe (x * 100) : ℤ) : ℚ) ≤ ((rhe (y * 100) : ℤ) : ℚ) := by exact_mod_cast hm
  linarith

theorem ckptStep_inv (mn lcf : List Char) (en : Bool) (st : CkptState) (acc f1 : ℚ)
    (h : CkptInv st) : CkptInv (ckptStep mn lcf en st acc f1) := by
  obtain ⟨h1, h2, h3⟩ := h
  unfold ckptStep
  split
  · rename_i himp
    split
    · refine ⟨?_, ?_, ?_⟩
      · cases hsp : st.savePath with
        | none =>
          rw [hsp] at h1
          simp only [hsp, h1, Option.toList]
          rfl
        | some q =>
          rw [hsp] at h1
          simp only [hsp, h1]
          simp [Option.toList]
      · rw [List.pairwise_append]
        refine ⟨h2, List.pairwise_singleton _ _, ?_⟩
        intro p hp q hq
        rw [List.mem_singleton] at hq
        subst hq
        calc p.accEnc ≤ pyRound2 (st.maxAcc * 100) := h3 p hp
        _ ≤ pyRound2 (acc * 100) := pyRound2_mono (by linarith)
      · intro p hp
        rcases List.mem_append.mp hp with hp1 | hp2
        · exact le_trans (h3 p hp1) (pyRound2_mono (by linarith))
        · rw [List.mem_singleton] at hp2
          subst hp2
          exact le_refl _
    · exact ⟨h1, h2, fun p hp => le_trans (h3 p hp) (pyRound2_mono (by linarith))⟩
  · exact ⟨h1, h2, h3⟩

theorem ckptRun_inv (mn lcf : List Char) (en : Bool) (st : CkptState)
    (evals : List (ℚ × ℚ)) (h : CkptInv st) : CkptInv (ckptRun mn lcf en st evals) := by
  induction evals generalizing st with
  | nil => exact h
  | cons e es ih => exact ih _ (ckptStep_inv mn lcf en st e.1 e.2 h)

/-! ## Claim theorems -/

/-- C5: for every input and every non-`lcfs` model, `get_lca_ids_and_cdm_vec`
returns the all-ones `lca_ids` vector and the all-ones `cdm_vec` matrix
whenever it returns at all (it raises `IndexError` exactly when the aspect's
first token does not occur): both arrays are initialized to ones and never
zeroed, so they carry no information about the aspect position. -/
theorem lca_cdm_all_ones (synd : ℕ → ℚ) (SRD msl : ℕ) (tids aids : List ℕ) :
    get_lca_ids_and_cdm_vec false synd SRD msl tids aids
      = (get_asp_index tids aids).map (fun _ => (fun _ => (1 : ℚ), fun _ => (1 : ℚ))) := by
  unfold get_lca_ids_and_cdm_vec
  cases h : get_asp_index tids aids <;> simp [h, ite_self]

/-- C8: `process_data` stores the polarity as `v + 1` when the `!sent!` field
is a nonempty integer string `v` of `{0, 1, 2}`, and stores the sentinel
`-999` when there is no `!sent!` section or the field is empty. -/
theorem polarity_shift :
    (∀ t : List Char, ∀ v : ℤ, containsSub t sentTok = true →
        pyInt (pyStrip ((pySplit t sentTok).getD 1 [])) = some v →
        (v = 0 ∨ v = 1 ∨ v = 2) →
        polarityOf t = some (v + 1)) ∧
    (∀ t : List Char, containsSub t sentTok = false → polarityOf t = some (-999)) ∧
    (∀ t : List Char, containsSub t sentTok = true →
        pyStrip ((pySplit t sentTok).getD 1 []) = [] → polarityOf t = some (-999)) := by
  refine ⟨?_, ?_, ?_⟩
  · intro t v hc hint _
    have hp : pyStrip ((pySplit t sentTok).getD 1 []) ≠ [] := by
      intro he
      rw [he] at hint
      simp [pyInt] at hint
    unfold polarityOf
    rw [hc, if_pos rfl, if_neg hp, hint]
    rfl
  · intro t hc
    unfold polarityOf
    rw [hc]
    rfl
  · intro t hc hp
    unfold polarityOf
    rw [hc, if_pos rfl, if_pos hp]

/-- C8 witness: the sample `a [ASP]b[ASP] !sent! 2` is stored with
polarity 3. -/
theorem polarity_shift_witness :
    polarityOf "a [ASP]b[ASP] !sent! 2".data = some 3 := by
  have h := polarity_shift.1 ("a [ASP]b[ASP] !sent! 2".data) 2 (by decide) (by decide)
    (Or.inr (Or.inr rfl))
  simpa using h

/-- C9 counterexample: for an unlabeled sample (stored polarity `-999`) the
record built by `_infer` still contains the `'infer result'` key (with value
`Wrong`), while the claim says the field is absent. -/
theorem infer_result_field_counterexample :
    (mkInferRecord "t".data "a".data 1 (-999)).map (fun r => r.infer_result)
      = some (some ("Wrong".data)) := by decide

/-- C9 amended: every record built by `_infer` carries `text`, `aspect`, the
predicted `sentiment`, the human-readable `ref_sentiment` (empty string for
unlabeled samples), and an always-present `'infer result'` field equal to
`Correct` iff the prediction equals the stored reference (hence `Wrong` for
every unlabeled sample). -/
theorem infer_record_fields (text aspect : List Char) (sent rs : ℤ) (rec : InferRecord)
    (h : mkInferRecord text aspect sent rs = some rec) :
    rec.text = text ∧ rec.aspect = aspect ∧ rec.sentiment = sent ∧
    rec.infer_result = some (correctStr (decide (sent = rs))) ∧
    (rs = -999 → rec.ref_sentiment = []) ∧
    (rs = 0 → rec.ref_sentiment = "Negative".data) ∧
    (rs = 1 → rec.ref_sentiment = "Neutral".data) ∧
    (rs = 2 → rec.ref_sentiment = "Positive".data) := by
  unfold mkInferRecord at h
  cases hm : sentimentsMap rs with
  | none =>
    rw [hm] at h
    simp at h
  | some ref =>
    rw [hm] at h
    simp only [Option.map_some'] at h
    obtain rfl := (Option.some.inj h)
    refine ⟨rfl, rfl, rfl, rfl, ?_, ?_, ?_, ?_⟩ <;> intro hrs <;> subst hrs <;>
      simp [sentimentsMap] at hm <;> simp [hm]

/-- C9 witness: a concrete unlabeled record, with all fields as the amended
claim states. -/
theorem infer_record_fields_witness :
    (InferRecord.mk "t".data "a".data 1 [] (some "Wrong".data)).sentiment = 1 ∧
    (InferRecord.mk "t".data "a".data 1 [] (some "Wrong".data)).infer_result
      = some (correctStr (decide ((1 : ℤ) = -999))) ∧
    (InferRecord.mk "t".data "a".data 1 [] (some "Wrong".data)).ref_sentiment = [] := by
  have h := infer_record_fields "t".data "a".data 1 (-999)
    (InferRecord.mk "t".data "a".data 1 [] (some "Wrong".data)) (by decide)
  exact ⟨h.2.2.1, h.2.2.2.1, h.2.2.2.2.1 rfl⟩

/-- C3 counterexample: with `lcf='fusion'` on an lcf-family model and
`ignore_error` set (its default), `process_data` raises
`NotImplementedError` per sample but catches it, skips the sample and
returns normally — the pipeline does not abort, so the error is not fatal
"regardless of the ignore_error setting". -/
theorem fusion_not_fatal_counterexample :
    process_data_ctrl "lcf_bert".data "fusion".data true [some "a [ASP]b[ASP] c".data]
      = .ok [] ∧
    lcfFeatureCheck "lcf_bert".data "fusion".data = .fail .lcfFusionNotImplemented := by
  decide

/-- C3 amended: with `lcf='fusion'` on an lcf-family (non-lca) model, feature
building raises `NotImplementedError` for every sample; the error is fatal
(aborting `process_data` with a `RuntimeError`) only when `ignore_error` is
false, while with `ignore_error` set each sample is skipped, so no feature
record is ever built but the run continues. -/
theorem fusion_error_policy (mn lcf : List Char)
    (hmodlcf : containsSub mn "lcf".data = true)
    (hmodlca : containsSub mn "lca".data = false)
    (hfus : containsSub lcf "fusion".data = true)
    (hcdm : containsSub lcf "cdm".data = false)
    (hcdw : containsSub lcf "cdw".data = false) :
    lcfFeatureCheck mn lcf = .fail .lcfFusionNotImplemented ∧
    (∀ samples : List (Option (List Char)),
        (∀ s ∈ samples, (sampleCheck mn lcf s).isFail = true) →
        process_data_ctrl mn lcf true samples = .ok []) ∧
    (∀ s : List Char, ∀ rest : List (Option (List Char)),
        (sampleCheck mn lcf (some s)).isFail = true →
        process_data_ctrl mn lcf false (some s :: rest)
          = .fatal ("Error while processing: ".data ++ s)) := by
  refine ⟨?_, ?_, ?_⟩
  · simp [lcfFeatureCheck, hmodlca, hmodlcf, hcdm, hcdw, hfus]
  · intro samples hall
    induction samples with
    | nil => rfl
    | cons t ts ih =>
      have ht := hall t (List.mem_cons_self t ts)
      cases hsc : sampleCheck mn lcf t with
      | pass => rw [hsc] at ht; simp [FeatCheck.isFail] at ht
      | fail e =>
        unfold process_data_ctrl
        rw [hsc]
        exact ih (fun s hs => hall s (List.mem_cons_of_mem t hs))
  · intro s rest hs
    cases hsc : sampleCheck mn lcf (some s) with
    | pass => rw [hsc] at hs; simp [FeatCheck.isFail] at hs
    | fail e =>
      unfold process_data_ctrl
      rw [hsc]
      rfl

/-- C3 witness: concrete fusion-configured run; the not-implemented failure,
the silent skip under `ignore_error`, and the fatal abort without it. -/
theorem fusion_error_policy_witness :
    lcfFeatureCheck "lcf_bert".data "fusion".data = .fail .lcfFusionNotImplemented ∧
    process_data_ctrl "lcf_bert".data "fusion".data true [some "a [ASP]b[ASP] c".data]
      = .ok [] ∧
    process_data_ctrl "lcf_bert".data "fusion".data false [some "a [ASP]b[ASP] c".data]
      = .fatal ("Error while processing: ".data ++ "a [ASP]b[ASP] c".data) := by
  have h := fusion_error_policy "lcf_bert".data "fusion".data (by decide) (by decide)
    (by decide) (by decide) (by decide)
  exact ⟨h.1, h.2.1 [some "a [ASP]b[ASP] c".data] (by decide),
    h.2.2 "a [ASP]b[ASP] c".data [] (by decide)⟩

/-- C4 counterexample: the raw line `x [ASP]a[ASP] a` has one aspect-marker
pair and no `!sent!` section, and yields exactly one sample — but because
line 37 re-wraps every occurrence of the aspect string in the stripped text,
that sample carries two delimited spans (four `[ASP]` markers), not "exactly
one aspect enclosed in a single pair". -/
theorem parse_multi_mark_counterexample :
    containsSub "x [ASP]a[ASP] a".data sentTok = false ∧
    countOccs "x [ASP]a[ASP] a".data aspTok = 2 ∧
    (parse_sample "x [ASP]a[ASP] a".data).samples = ["x [ASP]a[ASP] [ASP]a[ASP]".data] ∧
    countOccs "x [ASP]a[ASP] [ASP]a[ASP]".data aspTok = 4 := by decide

/-- C4 amended: for a raw line with `k` aspect-marker pairs and no `!sent!`
section, `parse_sample` yields exactly `k` samples without raising; the
`i`-th sample is the line with all `[ASP]` markers removed and every
occurrence of the `i`-th aspect string re-wrapped in `[ASP]` delimiters — so
a sample carries exactly one delimited aspect only when its aspect string
occurs exactly once in the stripped line, and other aspects equal to it are
marked as well. -/
theorem parse_sample_no_sent (t : List Char) (k : ℕ)
    (hsent : containsSub t sentTok = false)
    (hk : (pySplit t aspTok).length = 2 * k + 1) :
    (parse_sample t).samples.length = k ∧
    (parse_sample t).raised = false ∧
    (parse_sample t).msgs = [] ∧
    (∀ i, i < k → (parse_sample t).samples.getD i []
        = mkNoSentSample t ((pySplit t aspTok).getD (2 * i + 1) [])) := by
  have hps : parse_sample t =
      ⟨(evens ((pySplit t aspTok).length - 1)).map
          (fun i => mkNoSentSample t ((pySplit t aspTok).getD (i + 1) [])), [], false⟩ := by
    unfold parse_sample
    rw [hsent]
    rfl
  rw [hps]
  refine ⟨?_, rfl, rfl, ?_⟩
  · rw [List.length_map, evens_length, hk]
    omega
  · intro i hi
    rw [List.getD_eq_getElem?_getD, List.getElem?_map, hk]
    have he : (evens (2 * k + 1 - 1))[i]? = some (2 * i) := by
      apply evens_getElem?
      omega
    rw [he]
    rfl

/-- C4 witness: a two-aspect line yields two samples, the second marking the
second aspect. -/
theorem parse_sample_no_sent_witness :
    (parse_sample "u [ASP]a[ASP] v [ASP]b[ASP] w".data).samples.length = 2 ∧
    (parse_sample "u [ASP]a[ASP] v [ASP]b[ASP] w".data).samples.getD 1 []
      = mkNoSentSample "u [ASP]a[ASP] v [ASP]b[ASP] w".data
          ((pySplit "u [ASP]a[ASP] v [ASP]b[ASP] w".data aspTok).getD 3 []) := by
  have h := parse_sample_no_sent "u [ASP]a[ASP] v [ASP]b[ASP] w".data 2 (by decide) (by decide)
  exact ⟨h.1, h.2.2.2 1 (by decide)⟩

/-- C10 counterexample: the line `a [ASP]b[ASP] c [ASP]d !sent! 1` (three
`[ASP]` markers, one reference polarity) makes the matching-count loop raise
`IndexError` at its second iteration; the error is caught and a message is
printed, but `parse_sample` yields the one sample built before the raise —
not "exactly zero samples". -/
theorem parse_error_partial_counterexample :
    (parse_sample "a [ASP]b[ASP] c [ASP]d !sent! 1".data).raised = true ∧
    (parse_sample "a [ASP]b[ASP] c [ASP]d !sent! 1".data).samples.length = 1 := by decide

/-- C10 amended: `parse_sample` never propagates an exception; when its body
raises, a single message identifying the offending input is emitted and the
samples built before the failure point are returned — exactly zero for a
line whose `!sent!` unpacking fails (two or more `!sent!` separators), but
possibly more when the matching-count loop raises mid-iteration. -/
theorem parse_error_recovery :
    (∀ t : List Char, 3 ≤ (pySplit t sentTok).length →
        parse_sample t = ⟨[], [errMsg t], true⟩) ∧
    (∀ t : List Char, (parse_sample t).raised = true → (parse_sample t).msgs.length = 1) := by
  constructor
  · intro t h3
    have hc : containsSub t sentTok = true := by
      unfold containsSub
      exact decide_eq_true (by omega)
    unfold parse_sample
    rw [hc, if_pos rfl]
    rcases hsp : pySplit t sentTok with _ | ⟨a, _ | ⟨b, _ | ⟨c, cs⟩⟩⟩
    · rfl
    · rfl
    · rw [hsp] at h3
      simp at h3
    · rfl
  · intro t h
    by_cases hc : containsSub t sentTok = true
    · unfold parse_sample at h ⊢
      rw [hc, if_pos rfl] at h ⊢
      rcases hsp : pySplit t sentTok with _ | ⟨a, _ | ⟨b, _ | ⟨c, cs⟩⟩⟩
      · rfl
      · rfl
      · rw [hsp] at h
        replace h : (parseSentBranch a b).raised = true := h
        show (parseSentBranch a b).msgs.length = 1
        unfold parseSentBranch at h ⊢
        by_cases heq : ((pySplit (padText a) aspTok).length - 1) / 2 = (pySplitWs b).length
        · rw [if_pos heq] at h ⊢
          have hr : (eqLoop (padText a) (pySplit (padText a) aspTok) (pySplitWs b)
              (evens ((pySplit (padText a) aspTok).length - 1))).2 = true := h
          unfold mkRaisedOut
          rw [hr]
          rfl
        · rw [if_neg heq] at h
          simp [ParseOut.raised] at h
      · rfl
    · unfold parse_sample at h
      rw [if_neg hc] at h
      simp at h

/-- C10 witness: a line with two `!sent!` separators fails before any sample
is built: the error is caught, the message emitted, and zero samples are
returned. -/
theorem parse_error_recovery_witness :
    parse_sample "a !sent! 1 !sent! 2".data
      = ⟨[], [errMsg "a !sent! 1 !sent! 2".data], true⟩ := by
  exact parse_error_recovery.1 "a !sent! 1 !sent! 2".data (by decide)

/-- C7: for a feature record whose aspect's first token occurs in the
tokenized text (at first index `k`), `get_asp_index` returns exactly
`(k * 2 + aspect_token_length) / 2` with `aspect_token_length` the nonzero
count of the aspect indices minus 2, and — the aspect span fitting inside the
fixed-length sequence — the value lies in `[0, max_seq_len)`. -/
theorem asp_index_midpoint_range (tids aids : List ℕ) (msl k : ℕ) (v : ℚ)
    (hlen : tids.length = msl)
    (hk : firstIdx tids aids = some k)
    (hnz : 2 ≤ countNonzero aids)
    (hfit : k + (countNonzero aids - 2) ≤ msl)
    (hv : get_asp_index tids aids = some v) :
    v = ((k : ℚ) * 2 + (((countNonzero aids : ℕ) : ℚ) - 2)) / 2 ∧
    0 ≤ v ∧ v < (msl : ℚ) := by
  unfold get_asp_index at hv
  rw [hk] at hv
  obtain rfl := Option.some.inj hv
  have hkm : k < msl := by
    unfold firstIdx at hk
    have := findIdx?_lt_length hk
    omega
  have hcast : (aspectLenZ aids : ℚ) = ((countNonzero aids - 2 : ℕ) : ℚ) := by
    unfold aspectLenZ
    have h2 : ((countNonzero aids : ℤ) - 2) = ((countNonzero aids - 2 : ℕ) : ℤ) := by omega
    rw [h2]
    push_cast
    rfl
  have hcast2 : ((countNonzero aids - 2 : ℕ) : ℚ) = ((countNonzero aids : ℕ) : ℚ) - 2 := by
    rw [Nat.cast_sub hnz]
    norm_num
  refine ⟨by rw [hcast, hcast2], ?_, ?_⟩
  · rw [hcast]
    positivity
  · rw [hcast]
    have hkQ : ((k : ℚ)) < (msl : ℚ) := by exact_mod_cast hkm
    rcases Nat.eq_zero_or_pos (countNonzero aids - 2) with h0 | h1
    · rw [h0]
      push_cast
      linarith
    · have hfitQ : ((k : ℚ)) + ((countNonzero aids - 2 : ℕ) : ℚ) ≤ (msl : ℚ) := by
        exact_mod_cast hfit
      have h1Q : (1 : ℚ) ≤ ((countNonzero aids - 2 : ℕ) : ℚ) := by exact_mod_cast h1
      linarith

/-- C7 witness: in the sequence `[1, 9, 5, 2, 5, 2, 0, 0]` the aspect
`[1, 5, 2, 0, ...]` (first token id 5, one nonzero aspect token) gets the
fractional index 5/2, inside `[0, 8)`. -/
theorem asp_index_midpoint_range_witness :
    (5 : ℚ) / 2
      = (((2 : ℕ) : ℚ) * 2 + (((countNonzero [1, 5, 2, 0, 0, 0, 0, 0] : ℕ) : ℚ) - 2)) / 2 ∧
    0 ≤ (5 : ℚ) / 2 ∧ (5 : ℚ) / 2 < ((8 : ℕ) : ℚ) := by
  have hv : get_asp_index [1, 9, 5, 2, 5, 2, 0, 0] [1, 5, 2, 0, 0, 0, 0, 0] = some (5 / 2) := by
    unfold get_asp_index
    rw [show firstIdx [1, 9, 5, 2, 5, 2, 0, 0] [1, 5, 2, 0, 0, 0, 0, 0] = some 2 from by decide]
    norm_num [show aspectLenZ [1, 5, 2, 0, 0, 0, 0, 0] = 1 from by decide]
  exact asp_index_midpoint_range [1, 9, 5, 2, 5, 2, 0, 0] [1, 5, 2, 0, 0, 0, 0, 0] 8 2 (5 / 2)
    (by decide) (by decide) (by decide) (by decide) hv

/-- C1 counterexample: with `SRD = 10` the local window
`[aspect_begin - SRD, aspect_begin + aspect_len + SRD - 1] = [5/2 - 10, 25/2]`
extends past the nonzero text length 6; position 6 lies inside the window
(and inside the max_seq_len-8 vector) yet its CDW weight is the `np.zeros`
initialization 0, not the claimed 1. -/
theorem cdw_claim_counterexample :
    cdw_weight_at false (fun _ => 0) 10 [1, 9, 5, 2, 5, 2, 0, 0] [1, 5, 2, 0, 0, 0, 0, 0] 6
      = some 0 ∧
    get_asp_index [1, 9, 5, 2, 5, 2, 0, 0] [1, 5, 2, 0, 0, 0, 0, 0] = some (5 / 2) ∧
    aspectLenZ [1, 5, 2, 0, 0, 0, 0, 0] = 1 ∧
    textLen [1, 9, 5, 2, 5, 2, 0, 0] = some 6 ∧
    ((5 : ℚ) / 2 - 10 ≤ 6) ∧ ((6 : ℚ) ≤ 5 / 2 + 1 + 10 - 1) ∧ (0 : ℚ) ≠ 1 := by
  have hfi : firstIdx [1, 9, 5, 2, 5, 2, 0, 0] [1, 5, 2, 0, 0, 0, 0, 0] = some 2 := by decide
  have htl : textLen [1, 9, 5, 2, 5, 2, 0, 0] = some 6 := by decide
  have hab : get_asp_index [1, 9, 5, 2, 5, 2, 0, 0] [1, 5, 2, 0, 0, 0, 0, 0] = some (5 / 2) := by
    unfold get_asp_index
    rw [hfi]
    norm_num [show aspectLenZ [1, 5, 2, 0, 0, 0, 0, 0] = 1 from by decide]
  refine ⟨?_, hab, by decide, htl, by norm_num, by norm_num, by norm_num⟩
  unfold cdw_weight_at get_cdw_vec
  simp only [hfi, htl, hab, Bool.false_eq_true, if_false]
  norm_num

/-- C1 amended: in CDW absolute mode, for every position `i` BELOW the
nonzero text length, the weight is exactly 1 inside the local window
`[aspect_begin - SRD, aspect_begin + aspect_len + SRD - 1]` and the linear
decay `1 - distance/text_len` to the nearest window edge strictly outside it,
and every weight is in `[0, 1]`; positions at or beyond the text length keep
the zero initialization even when the window covers them (the
counterexample), which also lies in `[0, 1]`. -/
theorem cdw_abs_weights (synd : ℕ → ℚ) (SRD : ℕ) (tids aids : List ℕ) (k tl : ℕ)
    (ab lce : ℚ)
    (hk : firstIdx tids aids = some k)
    (htl : textLen tids = some tl)
    (hnz : 2 ≤ countNonzero aids)
    (hfit : k + (countNonzero aids - 2) ≤ tl)
    (hab : get_asp_index tids aids = some ab)
    (hlce : lce = ab + ((countNonzero aids - 2 : ℕ) : ℚ) + (SRD : ℚ) - 1)
    (i : ℕ) (hi : i < tl) :
    (ab - (SRD : ℚ) ≤ (i : ℚ) → (i : ℚ) ≤ lce →
        cdw_weight_at false synd SRD tids aids i = some 1) ∧
    ((i : ℚ) < ab - (SRD : ℚ) →
        cdw_weight_at false synd SRD tids aids i
          = some (1 - ((ab - (SRD : ℚ)) - (i : ℚ)) / (tl : ℚ))) ∧
    (lce < (i : ℚ) →
        cdw_weight_at false synd SRD tids aids i
          = some (1 - ((i : ℚ) - lce) / (tl : ℚ))) ∧
    (∀ w : ℚ, cdw_weight_at false synd SRD tids aids i = some w → 0 ≤ w ∧ w ≤ 1) := by
  have hcastA := aspectLenZ_cast hnz
  have habk : ab = ((k : ℚ) * 2 + ((countNonzero aids - 2 : ℕ) : ℚ)) / 2 := by
    unfold get_asp_index at hab
    rw [hk] at hab
    rw [← hcastA]
    exact (Option.some.inj hab).symm
  have hm0 : (0 : ℚ) ≤ ((countNonzero aids - 2 : ℕ) : ℚ) := Nat.cast_nonneg _
  have hab0 : 0 ≤ ab := by
    rw [habk]
    positivity
  have htlQ : (1 : ℚ) ≤ (tl : ℚ) := by exact_mod_cast textLen_pos htl
  have hfitQ : (k : ℚ) + ((countNonzero aids - 2 : ℕ) : ℚ) ≤ (tl : ℚ) := by
    exact_mod_cast hfit
  have hab_le : ab ≤ (tl : ℚ) := by
    rw [habk]
    linarith
  have hiQ : (i : ℚ) ≤ (tl : ℚ) - 1 := by
    have : (i : ℚ) + 1 ≤ (tl : ℚ) := by exact_mod_cast hi
    linarith
  have hfun : get_cdw_vec false synd SRD tids aids = some (fun j =>
      if j < tl then
        if (j : ℚ) < max 0 (ab - (SRD : ℚ)) then
          1 - (max 0 (ab - (SRD : ℚ)) - (j : ℚ)) / (tl : ℚ)
        else if (j : ℚ) ≤ ab + ((countNonzero aids - 2 : ℕ) : ℚ) + (SRD : ℚ) - 1 then 1
        else 1 - ((j : ℚ) - (ab + ((countNonzero aids - 2 : ℕ) : ℚ) + (SRD : ℚ) - 1)) / (tl : ℚ)
      else 0) := by
    unfold get_cdw_vec
    simp only [hk, htl, hab, Bool.false_eq_true, if_false, if_neg (not_lt.mpr hab0), hcastA]
  subst hlce
  have hres : ∀ j : ℕ, cdw_weight_at false synd SRD tids aids j = some (
      if j < tl then
        if (j : ℚ) < max 0 (ab - (SRD : ℚ)) then
          1 - (max 0 (ab - (SRD : ℚ)) - (j : ℚ)) / (tl : ℚ)
        else if (j : ℚ) ≤ ab + ((countNonzero aids - 2 : ℕ) : ℚ) + (SRD : ℚ) - 1 then 1
        else 1 - ((j : ℚ) - (ab + ((countNonzero aids - 2 : ℕ) : ℚ) + (SRD : ℚ) - 1)) / (tl : ℚ)
      else 0) := by
    intro j
    unfold cdw_weight_at
    rw [hfun]
    rfl
  refine ⟨?_, ?_, ?_, ?_⟩
  · intro h1 h2
    rw [hres i, if_pos hi,
      if_neg (not_lt.mpr (max_le (Nat.cast_nonneg i) h1)), if_pos h2]
  · intro h1
    have hpos : (0 : ℚ) ≤ ab - (SRD : ℚ) := le_of_lt (lt_of_le_of_lt (Nat.cast_nonneg i) h1)
    rw [hres i, if_pos hi, if_pos (by rw [max_eq_right hpos]; exact h1), max_eq_right hpos]
  · intro h1
    have hnot : ¬((i : ℚ) < max 0 (ab - (SRD : ℚ))) := by
      intro hlt
      rcases le_or_lt (ab - (SRD : ℚ)) 0 with hle | hpos
      · rw [max_eq_left hle] at hlt
        exact absurd hlt (not_lt.mpr (Nat.cast_nonneg i))
      · rw [max_eq_right (le_of_lt hpos)] at hlt
        have hsmall : ((countNonzero aids - 2 : ℕ) : ℚ) + 2 * (SRD : ℚ) < 1 := by linarith
        have hzero : (countNonzero aids - 2) + 2 * SRD = 0 := by
          by_contra hne
          have hge : (1 : ℚ) ≤ (((countNonzero aids - 2) + 2 * SRD : ℕ) : ℚ) := by
            exact_mod_cast Nat.one_le_iff_ne_zero.mpr hne
          push_cast at hge
          linarith
        obtain ⟨hm0', hs0⟩ : countNonzero aids - 2 = 0 ∧ SRD = 0 := by omega
        have habk' : ab = (k : ℚ) := by
          rw [habk, hm0']
          push_cast
          ring
        rw [habk', hs0] at hlt
        rw [habk', hs0, hm0'] at h1
        norm_num at hlt h1
        have hik : i < k := by exact_mod_cast hlt
        have hki : k < i + 1 := by
          have hq : (k : ℚ) < (i : ℚ) + 1 := by linarith
          exact_mod_cast hq
        omega
    rw [hres i, if_pos hi, if_neg hnot, if_neg (not_le.mpr h1)]
  · intro w hw
    rw [hres i] at hw
    obtain rfl := (Option.some.inj hw).symm
    rw [if_pos hi]
    have hmax_le : max 0 (ab - (SRD : ℚ)) ≤ (tl : ℚ) := by
      apply max_le
      · linarith
      · have : (0 : ℚ) ≤ (SRD : ℚ) := Nat.cast_nonneg SRD
        linarith
    have hlce_ge : (-1 : ℚ) ≤ ab + ((countNonzero aids - 2 : ℕ) : ℚ) + (SRD : ℚ) - 1 := by
      have : (0 : ℚ) ≤ (SRD : ℚ) := Nat.cast_nonneg SRD
      linarith
    split
    · constructor
      · have hnum : max 0 (ab - (SRD : ℚ)) - (i : ℚ) ≤ (tl : ℚ) := by
          have : (0 : ℚ) ≤ (i : ℚ) := Nat.cast_nonneg i
          linarith
        have : (max 0 (ab - (SRD : ℚ)) - (i : ℚ)) / (tl : ℚ) ≤ 1 := by
          rw [div_le_one (by linarith)]
          exact hnum
        linarith
      · have hnumpos : (0 : ℚ) ≤ max 0 (ab - (SRD : ℚ)) - (i : ℚ) := by
          rename_i hlt
          linarith
        have : (0 : ℚ) ≤ (max 0 (ab - (SRD : ℚ)) - (i : ℚ)) / (tl : ℚ) :=
          div_nonneg hnumpos (by linarith)
        linarith
    · split
      · norm_num
      · rename_i hlt hgt
        push_neg at hgt
        constructor
        · have hnum : (i : ℚ) - (ab + ((countNonzero aids - 2 : ℕ) : ℚ) + (SRD : ℚ) - 1)
              ≤ (tl : ℚ) := by linarith
          have : ((i : ℚ) - (ab + ((countNonzero aids - 2 : ℕ) : ℚ) + (SRD : ℚ) - 1)) / (tl : ℚ)
              ≤ 1 := by
            rw [div_le_one (by linarith)]
            exact hnum
          linarith
        · have hnumpos : (0 : ℚ)
              ≤ (i : ℚ) - (ab + ((countNonzero aids - 2 : ℕ) : ℚ) + (SRD : ℚ) - 1) := by
            linarith
          have : (0 : ℚ)
              ≤ ((i : ℚ) - (ab + ((countNonzero aids - 2 : ℕ) : ℚ) + (SRD : ℚ) - 1)) / (tl : ℚ) :=
            div_nonneg hnumpos (by linarith)
          linarith

/-- C1 witness: with `SRD = 1`, position 5 of the same sequence lies one and a
half tokens beyond the window edge 7/2 and gets weight
`1 - (5 - 7/2)/6 = 3/4`. -/
theorem cdw_abs_weights_witness :
    cdw_weight_at false (fun _ => 0) 1 [1, 9, 5, 2, 5, 2, 0, 0] [1, 5, 2, 0, 0, 0, 0, 0] 5
      = some (3 / 4) := by
  have hab : get_asp_index [1, 9, 5, 2, 5, 2, 0, 0] [1, 5, 2, 0, 0, 0, 0, 0] = some (5 / 2) := by
    unfold get_asp_index
    rw [show firstIdx [1, 9, 5, 2, 5, 2, 0, 0] [1, 5, 2, 0, 0, 0, 0, 0] = some 2 from by decide]
    norm_num [show aspectLenZ [1, 5, 2, 0, 0, 0, 0, 0] = 1 from by decide]
  have h := cdw_abs_weights (fun _ => 0) 1 [1, 9, 5, 2, 5, 2, 0, 0] [1, 5, 2, 0, 0, 0, 0, 0]
    2 6 (5 / 2) (7 / 2) (by decide) (by decide) (by decide) (by decide) hab
    (by norm_num [show countNonzero [1, 5, 2, 0, 0, 0, 0, 0] = 3 from by decide])
    5 (by norm_num)
  have h3 := h.2.2.1 (by norm_num)
  rw [h3]
  norm_num

/-- C6: with `cross_validate_fold < 1`, `prepare_dataloader` uses the single
configured train/test split; with `cross_validate_fold = m ≥ 1`, the random
permutation of train ++ test is cut into `m` chunks — the first `m - 1` of
size `total / m`, the last absorbing the remainder — and fold `i` trains on
the concatenation of every chunk except `i` and tests on chunk `i`, the
chunks together being a permutation of the whole dataset (every example held
out exactly once). -/
theorem kfold_partition {α : Type} (cvf : ℤ) (train test perm : List α)
    (hcv : 1 ≤ cvf)
    (hperm : perm.Perm (train ++ test)) :
    (prepare_dataloader cvf train test perm).2.length = cvf.toNat ∧
    (∀ i, i + 1 < cvf.toNat →
        ((prepare_dataloader cvf train test perm).2.getD i []).length
          = (train ++ test).length / cvf.toNat) ∧
    ((prepare_dataloader cvf train test perm).2.getD (cvf.toNat - 1) []).length
      = (train ++ test).length
        - (cvf.toNat - 1) * ((train ++ test).length / cvf.toNat) ∧
    (∀ i, i < cvf.toNat →
        (prepare_dataloader cvf train test perm).1.getD i []
          = ((prepare_dataloader cvf train test perm).2.eraseIdx i).flatten) ∧
    ((prepare_dataloader cvf train test perm).2.flatten).Perm (train ++ test) ∧
    (∀ c : ℤ, c < 1 → prepare_dataloader c train test perm
        = ([train], if test.isEmpty then [] else [test])) := by
  have hnlt : ¬ (cvf < 1) := not_lt.mpr hcv
  have hm1 : 1 ≤ cvf.toNat := by omega
  have hsum : (if test.isEmpty then train else train ++ test).length
      = (train ++ test).length := by
    cases test <;> simp
  have hpl : perm.length = (train ++ test).length := hperm.length_eq
  have hP2 : (prepare_dataloader cvf train test perm).2
      = splitChunks perm (foldLengths cvf.toNat (train ++ test).length) := by
    unfold prepare_dataloader
    rw [if_neg hnlt]
    simp only []
    rw [hsum]
  have hP1 : (prepare_dataloader cvf train test perm).1
      = (List.range cvf.toNat).map
          (fun i => ((splitChunks perm
            (foldLengths cvf.toNat (train ++ test).length)).eraseIdx i).flatten) := by
    unfold prepare_dataloader
    rw [if_neg hnlt]
    simp only []
    rw [hsum]
  have hsumle : (foldLengths cvf.toNat (train ++ test).length).sum ≤ perm.length := by
    rw [foldLengths_sum, hpl]
  refine ⟨?_, ?_, ?_, ?_, ?_, ?_⟩
  · rw [hP2, splitChunks_length, foldLengths_length]
    omega
  · intro i hi
    rw [hP2, splitChunks_getD_length perm _ hsumle i
      (by rw [foldLengths_length]; omega), foldLengths_getD_front _ _ _ hi]
  · rw [hP2, splitChunks_getD_length perm _ hsumle _
      (by rw [foldLengths_length]; omega), foldLengths_getD_last]
  · intro i hi
    rw [hP1, hP2, List.getD_eq_getElem?_getD, List.getElem?_map,
      List.getElem?_range hi]
    rfl
  · rw [hP2, splitChunks_flatten perm _ (by rw [foldLengths_sum, hpl])]
    exact hperm
  · intro c hc
    unfold prepare_dataloader
    rw [if_pos hc]

/-- C6 witness: a 3-fold request on 6 train and 0 test examples produces 3
held-out chunks of 2 whose concatenation is a permutation of the dataset;
with fold count 0 the single configured split is used. -/
theorem kfold_partition_witness :
    (prepare_dataloader 3 [0, 1, 2, 3, 4, 5] [] [5, 0, 1, 2, 3, 4]).2.length = 3 ∧
    ((prepare_dataloader 3 [0, 1, 2, 3, 4, 5] [] [5, 0, 1, 2, 3, 4]).2.getD 0 []).length = 2 ∧
    ((prepare_dataloader 3 [0, 1, 2, 3, 4, 5] [] [5, 0, 1, 2, 3, 4]).2.getD 2 []).length = 2 ∧
    ((prepare_dataloader 3 [0, 1, 2, 3, 4, 5] [] [5, 0, 1, 2, 3, 4]).2.flatten).Perm
      ([0, 1, 2, 3, 4, 5] ++ []) ∧
    prepare_dataloader 0 [0, 1, 2, 3, 4, 5] ([] : List ℕ) [5, 0, 1, 2, 3, 4]
      = ([[0, 1, 2, 3, 4, 5]], []) := by
  have h := kfold_partition 3 [0, 1, 2, 3, 4, 5] [] [5, 0, 1, 2, 3, 4] (by decide) (by decide)
  refine ⟨h.1, ?_, ?_, h.2.2.2.2.1, ?_⟩
  · have h2 := h.2.1 0 (by decide)
    simpa using h2
  · have h3 := h.2.2.1
    simpa using h3
  · have h6 := h.2.2.2.2.2 0 (by decide)
    simpa using h6

/-- C2 counterexample: two consecutive evaluations with strictly increasing
test accuracies 0.80121 and 0.80122 both save (strict improvement), but both
directory names encode `round(acc * 100, 2) = 80.12`, so the accuracy encoded
in successive save-path names is NOT strictly increasing — only
non-decreasing. -/
theorem ckpt_encoded_acc_counterexample :
    ((ckptRun "m".data "l".data true initCkpt
        [(80121 / 100000, 1 / 2), (80122 / 100000, 1 / 2)]).saves.map
      (fun p => p.accEnc)) = [2003 / 25, 2003 / 25] ∧
    ¬ List.Chain' (fun a b : ℚ => a < b) [2003 / 25, 2003 / 25] ∧
    (80121 / 100000 : ℚ) < 80122 / 100000 := by
  have e1 : pyRound2 ((80121 : ℚ) / 100000 * 100) = 2003 / 25 := by
    unfold pyRound2 rhe
    rw [show (80121 : ℚ) / 100000 * 100 * 100 = 80121 / 10 by norm_num]
    rw [show (⌊(80121 : ℚ) / 10⌋ : ℤ) = 8012 from by
      rw [Int.floor_eq_iff] <;> norm_num]
    rw [if_neg (by norm_num)]
    rw [show round ((80121 : ℚ) / 10) = 8012 from by
      rw [round_eq, show (80121 : ℚ) / 10 + 1 / 2 = 80126 / 10 by norm_num,
        Int.floor_eq_iff] <;> norm_num]
    norm_num
  have e2 : pyRound2 ((80122 : ℚ) / 100000 * 100) = 2003 / 25 := by
    unfold pyRound2 rhe
    rw [show (80122 : ℚ) / 100000 * 100 * 100 = 80122 / 10 by norm_num]
    rw [show (⌊(80122 : ℚ) / 10⌋ : ℤ) = 8012 from by
      rw [Int.floor_eq_iff] <;> norm_num]
    rw [if_neg (by norm_num)]
    rw [show round ((80122 : ℚ) / 10) = 8012 from by
      rw [round_eq, show (80122 : ℚ) / 10 + 1 / 2 = 80127 / 10 by norm_num,
        Int.floor_eq_iff] <;> norm_num]
    norm_num
  refine ⟨?_, ?_, by norm_num⟩
  · have hst : ckptRun "m".data "l".data true initCkpt
        [(80121 / 100000, 1 / 2), (80122 / 100000, 1 / 2)]
        = ⟨80122 / 100000,
           some (mkSavePath "m".data "l".data (80122 / 100000) (1 / 2)),
           [mkSavePath "m".data "l".data (80122 / 100000) (1 / 2)],
           [mkSavePath "m".data "l".data (80121 / 100000) (1 / 2),
            mkSavePath "m".data "l".data (80122 / 100000) (1 / 2)]⟩ := by
      unfold ckptRun ckptStep initCkpt
      rw [if_pos (by norm_num : (0 : ℚ) < 80121 / 100000), if_pos rfl]
      simp only []
      unfold ckptRun ckptStep
      rw [if_pos (by norm_num : (80121 / 100000 : ℚ) < 80122 / 100000), if_pos rfl]
      simp only [List.nil_append, List.erase_cons_head]
      rfl
    rw [hst]
    simp only [List.map_cons, List.map_nil, mkSavePath]
    rw [e1, e2]
  · intro hch
    rw [List.chain'_cons] at hch
    exact absurd hch.1 (lt_irrefl _)

/-- C2 amended: within a fold (with a configured save root), a checkpoint is
saved exactly when the test accuracy strictly exceeds the fold's running
maximum, the previous best directory is removed before the new one is
written, so at most one directory is retained at any time; the accuracy
encoded in successive save-path names is non-decreasing (not strictly
increasing, by the counterexample) in save order. -/
theorem ckpt_fold_policy (mn lcf : List Char) (evals : List (ℚ × ℚ)) :
    (ckptRun mn lcf true initCkpt evals).dirs.length ≤ 1 ∧
    (ckptRun mn lcf true initCkpt evals).dirs
      = (ckptRun mn lcf true initCkpt evals).savePath.toList ∧
    (ckptRun mn lcf true initCkpt evals).saves.Pairwise
      (fun p q => p.accEnc ≤ q.accEnc) ∧
    (∀ st : CkptState, ∀ acc f1 : ℚ,
        (ckptStep mn lcf true st acc f1).saves ≠ st.saves →
        st.maxAcc < acc ∧
        (ckptStep mn lcf true st acc f1).saves
          = st.saves ++ [mkSavePath mn lcf acc f1] ∧
        (ckptStep mn lcf true st acc f1).dirs
          = (match st.savePath with
             | some p => st.dirs.erase p
             | none => st.dirs) ++ [mkSavePath mn lcf acc f1]) := by
  have hinv := ckptRun_inv mn lcf true initCkpt evals
    ⟨rfl, List.Pairwise.nil, by intro p hp; simp [initCkpt] at hp⟩
  obtain ⟨h1, h2, h3⟩ := hinv
  refine ⟨?_, h1, h2, ?_⟩
  · rw [h1]
    cases (ckptRun mn lcf true initCkpt evals).savePath <;> simp [Option.toList]
  · intro st acc f1 hne
    unfold ckptStep at hne ⊢
    by_cases hlt : st.maxAcc < acc
    · rw [if_pos hlt, if_pos rfl] at hne ⊢
      exact ⟨hlt, rfl, rfl⟩
    · rw [if_neg hlt] at hne
      exact absurd rfl hne

/-- C2 witness: from the fold-initial state, an evaluation with accuracy 1/2
changes the save history, so the theorem yields the strict improvement
`0 < 1/2` and the appended save. -/
theorem ckpt_fold_policy_witness :
    initCkpt.maxAcc < 1 / 2 ∧
    (ckptStep "m".data "l".data true initCkpt (1 / 2) (1 / 2)).saves
      = initCkpt.saves ++ [mkSavePath "m".data "l".data (1 / 2) (1 / 2)] := by
  have h := (ckpt_fold_policy "m".data "l".data []).2.2.2 initCkpt (1 / 2) (1 / 2)
    (by norm_num [ckptStep, initCkpt])
  exact ⟨h.1, h.2.1⟩
